import Mathlib

/-!
Verification development for the sverchok-extra node adapters:
the RBF ("minimal") curve node (`src/nodes/curve/rbf_curve.py`) and the
attractor field node (`src/nodes/field/attractor_field.py`).

Machine scalars are embedded as exact rationals (ℚ); 3D points as triples
of rationals.  Routines that live outside `src/` (the host utility
`make_euclidian_ts`, the `falloff` factory of `sverchok_extra.utils`, the
curve wrapper `SvExRbfCurve` of `sverchok_extra.data.curve`, and scipy's
`Rbf` linear solve) are modelled from the spec, as marked on each
definition.  The floating-point square root and exponential are abstracted
as function parameters (`rt`, `E`) constrained only by the properties the
statements need.
-/

/-- A 3D point: the embedding of one vertex `(x, y, z)`. -/
abbrev Vec3 : Type := ℚ × ℚ × ℚ

/-- Squared Euclidean distance between two 3D points.  The Euclidean
distance used by `numpy.linalg.norm` is `rt (sqDist p q)` for a square-root
routine `rt`, which is kept abstract because exact real square roots are
not computable. -/
def sqDist (p q : Vec3) : ℚ :=
  (p.1 - q.1) ^ 2 + (p.2.1 - q.2.1) ^ 2 + (p.2.2 - q.2.2) ^ 2

/-- Running sums of a list starting from `a`: the embedding of
`np.insert(tmp, 0, 0).cumsum()` is `scanSum 0 tmp`. -/
def scanSum : ℚ → List ℚ → List ℚ
  | a, [] => [a]
  | a, d :: ds => a :: scanSum (a + d) ds

/-- Modelled from the spec: `make_euclidian_ts` is imported from the host
library (`sverchok.utils.curve`) and is not part of this repository's
sources.  Per the spec (§4.1) it "computes a monotonically increasing
parameter value per point equal to cumulative Euclidean distance from the
first point, normalized or left raw"; the normalized form divides the
cumulative sums by the total length.  `rt` abstracts the floating-point
square root of `numpy.linalg.norm`; `distList` is the list of consecutive
distances `np.linalg.norm(pts[1:] - pts[:-1], axis=1)`. -/
def distList (rt : ℚ → ℚ) (pts : List Vec3) : List ℚ :=
  (pts.zip pts.tail).map (fun pq => rt (sqDist pq.1 pq.2))

/-- Modelled from the spec: see `distList`.  Cumulative sums of the
consecutive distances, starting at 0, divided by the total. -/
def make_euclidian_ts (rt : ℚ → ℚ) (pts : List Vec3) : List ℚ :=
  let tknots := scanSum 0 (distList rt pts)
  tknots.map (fun t => t / tknots.getLastD 0)

/-- Cumulative Euclidean (via the abstract square root `rt`) distance from
the first point of `pts` to its `i`-th point, along the polyline. -/
def cumDist (rt : ℚ → ℚ) (pts : List Vec3) (i : ℕ) : ℚ :=
  ((distList rt pts).take i).sum

theorem scanSum_length (a : ℚ) (ds : List ℚ) :
    (scanSum a ds).length = ds.length + 1 := by
  induction ds generalizing a with
  | nil => rfl
  | cons d ds ih => simp [scanSum, ih]

theorem scanSum_head? (a : ℚ) (ds : List ℚ) :
    (scanSum a ds).head? = some a := by
  cases ds <;> rfl

theorem scanSum_ne_nil (a : ℚ) (ds : List ℚ) : scanSum a ds ≠ [] := by
  cases ds <;> simp [scanSum]

theorem scanSum_getD (a : ℚ) (ds : List ℚ) (i : ℕ) (hi : i ≤ ds.length) :
    (scanSum a ds).getD i 0 = a + (ds.take i).sum := by
  induction ds generalizing a i with
  | nil =>
    cases Nat.le_zero.mp hi
    simp [scanSum]
  | cons d ds ih =>
    cases i with
    | zero => simp [scanSum]
    | succ j =>
      have hj : j ≤ ds.length := by simpa using hi
      rw [scanSum, List.getD_cons_succ, ih (a + d) j hj]
      simp [add_assoc]

theorem scanSum_getLast? (a : ℚ) (ds : List ℚ) :
    (scanSum a ds).getLast? = some (a + ds.sum) := by
  induction ds generalizing a with
  | nil => simp [scanSum]
  | cons d ds ih =>
    rw [scanSum]
    cases hd : scanSum (a + d) ds with
    | nil => exact absurd hd (scanSum_ne_nil (a + d) ds)
    | cons x xs =>
      rw [List.getLast?_cons_cons]
      rw [← hd, ih (a + d)]
      simp [add_assoc]

theorem scanSum_getLastD (a : ℚ) (ds : List ℚ) :
    (scanSum a ds).getLastD 0 = a + ds.sum := by
  rw [List.getLastD_eq_getLast?, scanSum_getLast?]
  rfl

theorem scanSum_chain'_le (a : ℚ) (ds : List ℚ) (h : ∀ d ∈ ds, 0 ≤ d) :
    List.Chain' (· ≤ ·) (scanSum a ds) := by
  induction ds generalizing a with
  | nil => simp [scanSum]
  | cons d ds ih =>
    have hd : 0 ≤ d := h d (by simp)
    have htail := ih (a + d) (fun x hx => h x (by simp [hx]))
    rw [scanSum]
    refine List.chain'_cons'.mpr ⟨?_, htail⟩
    intro y hy
    rw [scanSum_head? (a + d) ds] at hy
    simp at hy
    subst hy
    linarith

theorem scanSum_chain'_lt (a : ℚ) (ds : List ℚ) (h : ∀ d ∈ ds, 0 < d) :
    List.Chain' (· < ·) (scanSum a ds) := by
  induction ds generalizing a with
  | nil => simp [scanSum]
  | cons d ds ih =>
    have hd : 0 < d := h d (by simp)
    have htail := ih (a + d) (fun x hx => h x (by simp [hx]))
    rw [scanSum]
    refine List.chain'_cons'.mpr ⟨?_, htail⟩
    intro y hy
    rw [scanSum_head? (a + d) ds] at hy
    simp at hy
    subst hy
    linarith

theorem sqDist_nonneg (p q : Vec3) : 0 ≤ sqDist p q := by
  have h1 : (0 : ℚ) ≤ (p.1 - q.1) ^ 2 := sq_nonneg _
  have h2 : (0 : ℚ) ≤ (p.2.1 - q.2.1) ^ 2 := sq_nonneg _
  have h3 : (0 : ℚ) ≤ (p.2.2 - q.2.2) ^ 2 := sq_nonneg _
  unfold sqDist
  linarith

theorem sqDist_pos (p q : Vec3) (hpq : p ≠ q) : 0 < sqDist p q := by
  rcases lt_or_eq_of_le (sqDist_nonneg p q) with h | h
  · exact h
  · exfalso
    apply hpq
    have h1 : (0 : ℚ) ≤ (p.1 - q.1) ^ 2 := sq_nonneg _
    have h2 : (0 : ℚ) ≤ (p.2.1 - q.2.1) ^ 2 := sq_nonneg _
    have h3 : (0 : ℚ) ≤ (p.2.2 - q.2.2) ^ 2 := sq_nonneg _
    unfold sqDist at h
    have e1 : (p.1 - q.1) ^ 2 = 0 := by linarith
    have e2 : (p.2.1 - q.2.1) ^ 2 = 0 := by linarith
    have e3 : (p.2.2 - q.2.2) ^ 2 = 0 := by linarith
    have f1 : p.1 = q.1 := by
      have := sq_eq_zero_iff.mp e1
      linarith
    have f2 : p.2.1 = q.2.1 := by
      have := sq_eq_zero_iff.mp e2
      linarith
    have f3 : p.2.2 = q.2.2 := by
      have := sq_eq_zero_iff.mp e3
      linarith
    show (p.1, p.2.1, p.2.2) = (q.1, q.2.1, q.2.2)
    rw [f1, f2, f3]

theorem distList_length (rt : ℚ → ℚ) (pts : List Vec3) :
    (distList rt pts).length = pts.length - 1 := by
  simp [distList]

theorem distList_nonneg (rt : ℚ → ℚ) (pts : List Vec3)
    (hrt : ∀ x, 0 ≤ x → 0 ≤ rt x) :
    ∀ d ∈ distList rt pts, 0 ≤ d := by
  intro d hd
  rcases List.mem_map.mp hd with ⟨pq, _, rfl⟩
  exact hrt _ (sqDist_nonneg pq.1 pq.2)

theorem mem_zip_tail_of_chain' {α : Type} {R : α → α → Prop} :
    ∀ (l : List α), List.Chain' R l → ∀ pq ∈ l.zip l.tail, R pq.1 pq.2 := by
  intro l
  induction l with
  | nil =>
    intro _ pq hm
    simp at hm
  | cons a l ih =>
    intro hc pq hm
    cases l with
    | nil => simp at hm
    | cons b l2 =>
      rw [List.chain'_cons] at hc
      simp only [List.tail_cons, List.zip_cons_cons] at hm
      rcases List.mem_cons.mp hm with h | h
      · subst h
        exact hc.1
      · exact ih hc.2 pq h

theorem distList_pos (rt : ℚ → ℚ) (pts : List Vec3)
    (hrt : ∀ x, 0 < x → 0 < rt x) (hne : List.Chain' (· ≠ ·) pts) :
    ∀ d ∈ distList rt pts, 0 < d := by
  intro d hd
  rcases List.mem_map.mp hd with ⟨pq, hpq, rfl⟩
  exact hrt _ (sqDist_pos pq.1 pq.2 (mem_zip_tail_of_chain' pts hne pq hpq))

theorem sum_pos_of_ne_nil (l : List ℚ) (hne : l ≠ []) (h : ∀ x ∈ l, 0 < x) :
    0 < l.sum := by
  cases l with
  | nil => exact absurd rfl hne
  | cons a l =>
    have ha : 0 < a := h a (by simp)
    have hl : 0 ≤ l.sum :=
      List.sum_nonneg (fun x hx => le_of_lt (h x (by simp [hx])))
    rw [List.sum_cons]
    linarith

theorem div_le_div_same_nonneg {x y t : ℚ} (h : x ≤ y) (ht : 0 ≤ t) :
    x / t ≤ y / t := by
  rcases ht.eq_or_lt with h0 | hpos
  · rw [← h0]
    simp
  · exact (div_le_div_iff_of_pos_right hpos).mpr h

theorem getD_map_of_lt (f : ℚ → ℚ) (l : List ℚ) (i : ℕ) (h : i < l.length) :
    (l.map f).getD i 0 = f (l.getD i 0) := by
  rw [List.getD_eq_getElem?_getD, List.getD_eq_getElem?_getD,
    List.getElem?_map, List.getElem?_eq_getElem h]
  simp

theorem scanSum_getLastD_sum (rt : ℚ → ℚ) (pts : List Vec3) :
    (scanSum 0 (distList rt pts)).getLastD 0 = (distList rt pts).sum := by
  rw [scanSum_getLastD]
  ring

theorem make_euclidian_ts_getD (rt : ℚ → ℚ) (pts : List Vec3)
    (i : ℕ) (hi : i < pts.length) (hn : 1 ≤ pts.length) :
    (make_euclidian_ts rt pts).getD i 0
      = cumDist rt pts i / cumDist rt pts (pts.length - 1) := by
  have hdl : (distList rt pts).length = pts.length - 1 := distList_length rt pts
  have htotal : cumDist rt pts (pts.length - 1) = (distList rt pts).sum := by
    unfold cumDist
    rw [← hdl, List.take_length]
  have hi' : i ≤ (distList rt pts).length := by omega
  have hilt : i < (scanSum 0 (distList rt pts)).length := by
    rw [scanSum_length]
    omega
  unfold make_euclidian_ts
  rw [getD_map_of_lt _ _ i hilt, scanSum_getD 0 _ i hi',
    scanSum_getLastD_sum, htotal]
  unfold cumDist
  ring_nf

theorem make_euclidian_ts_chain_le (rt : ℚ → ℚ) (pts : List Vec3)
    (hrt : ∀ x, 0 ≤ x → 0 ≤ rt x) :
    List.Chain' (· ≤ ·) (make_euclidian_ts rt pts) := by
  have hT0 : 0 ≤ (distList rt pts).sum :=
    List.sum_nonneg (distList_nonneg rt pts hrt)
  unfold make_euclidian_ts
  rw [List.chain'_map]
  refine (scanSum_chain'_le 0 _ (distList_nonneg rt pts hrt)).imp ?_
  intro a b hab
  rw [scanSum_getLastD_sum]
  exact div_le_div_same_nonneg hab hT0

theorem make_euclidian_ts_chain_lt (rt : ℚ → ℚ) (pts : List Vec3)
    (hn : 2 ≤ pts.length) (hrtpos : ∀ x, 0 < x → 0 < rt x)
    (hnepts : List.Chain' (· ≠ ·) pts) :
    List.Chain' (· < ·) (make_euclidian_ts rt pts) := by
  have hdl : (distList rt pts).length = pts.length - 1 := distList_length rt pts
  have hpos := distList_pos rt pts hrtpos hnepts
  have hdne : distList rt pts ≠ [] := by
    intro hnil
    rw [hnil] at hdl
    simp at hdl
    omega
  have hsum : 0 < (distList rt pts).sum := sum_pos_of_ne_nil _ hdne hpos
  unfold make_euclidian_ts
  rw [List.chain'_map]
  refine (scanSum_chain'_lt 0 _ hpos).imp ?_
  intro a b hab
  rw [scanSum_getLastD_sum]
  exact (div_lt_div_iff_of_pos_right hsum).mpr hab

/-- Claim C2: for every sequence of at least 2 input 3D points, the
per-point parameter value computed by `make_euclidian_ts` before the RBF
fit equals the cumulative Euclidean distance from the first point,
normalized by the total length, and the parameter values are monotonically
increasing: always non-strictly, and strictly whenever consecutive points
are distinct and the square root is positive on positive inputs. -/
theorem make_euclidian_ts_cumulative (rt : ℚ → ℚ) (pts : List Vec3)
    (hrt : ∀ x, 0 ≤ x → 0 ≤ rt x) (hn : 2 ≤ pts.length) :
    (∀ i < pts.length,
        (make_euclidian_ts rt pts).getD i 0
          = cumDist rt pts i / cumDist rt pts (pts.length - 1))
      ∧ List.Chain' (· ≤ ·) (make_euclidian_ts rt pts)
      ∧ ((∀ x, 0 < x → 0 < rt x) → List.Chain' (· ≠ ·) pts →
          List.Chain' (· < ·) (make_euclidian_ts rt pts)) :=
  ⟨fun i hi => make_euclidian_ts_getD rt pts i hi (by omega),
    make_euclidian_ts_chain_le rt pts hrt,
    fun hrtpos hnepts => make_euclidian_ts_chain_lt rt pts hn hrtpos hnepts⟩

/-- Witness for C2 at a concrete input: two distinct points one unit
apart, with the identity standing in for the square root (exact on the
squared distances 0 and 1 that occur). -/
theorem make_euclidian_ts_cumulative_witness :
    2 ≤ ([((0:ℚ), (0:ℚ), (0:ℚ)), ((1:ℚ), (0:ℚ), (0:ℚ))] : List Vec3).length
      ∧ List.Chain' (· ≤ ·)
          (make_euclidian_ts (fun x => x)
            [((0:ℚ), (0:ℚ), (0:ℚ)), ((1:ℚ), (0:ℚ), (0:ℚ))]) :=
  ⟨by decide,
    (make_euclidian_ts_cumulative (fun x => x)
      [((0:ℚ), (0:ℚ), (0:ℚ)), ((1:ℚ), (0:ℚ), (0:ℚ))]
      (fun _ hx => hx) (by decide)).2.1⟩

/-- Claim C3: for all point sequences of length at least 2, the arc-length
parametrization produced for the RBF curve fit is non-decreasing: each
parameter value is greater than or equal to the previous one. -/
theorem make_euclidian_ts_nondecreasing (rt : ℚ → ℚ) (pts : List Vec3)
    (hrt : ∀ x, 0 ≤ x → 0 ≤ rt x) (_hn : 2 ≤ pts.length) :
    ∀ i, i + 1 < (make_euclidian_ts rt pts).length →
      (make_euclidian_ts rt pts).getD i 0
        ≤ (make_euclidian_ts rt pts).getD (i + 1) 0 := by
  intro i hi
  have hchain := make_euclidian_ts_chain_le rt pts hrt
  rw [List.chain'_iff_get] at hchain
  have h1 : i < (make_euclidian_ts rt pts).length := by omega
  have h2 : i + 1 < (make_euclidian_ts rt pts).length := hi
  have := hchain i (by omega)
  rw [List.getD_eq_getElem _ _ h1, List.getD_eq_getElem _ _ h2]
  simpa [List.get_eq_getElem] using this

/-- Witness for C3 at the same concrete two-point input. -/
theorem make_euclidian_ts_nondecreasing_witness :
    2 ≤ ([((0:ℚ), (0:ℚ), (0:ℚ)), ((1:ℚ), (0:ℚ), (0:ℚ))] : List Vec3).length
      ∧ (make_euclidian_ts (fun x => x)
            [((0:ℚ), (0:ℚ), (0:ℚ)), ((1:ℚ), (0:ℚ), (0:ℚ))]).getD 0 0
          ≤ (make_euclidian_ts (fun x => x)
            [((0:ℚ), (0:ℚ), (0:ℚ)), ((1:ℚ), (0:ℚ), (0:ℚ))]).getD 1 0 :=
  ⟨by decide,
    make_euclidian_ts_nondecreasing (fun x => x)
      [((0:ℚ), (0:ℚ), (0:ℚ)), ((1:ℚ), (0:ℚ), (0:ℚ))]
      (fun _ hx => hx) (by decide) 0 (by decide)⟩

/-- Data of a falloff closure: the arguments the node passes to the
`falloff` factory of `sverchok_extra.utils` (attractor_field.py line 138).
Field objects are embedded as carrying this descriptor rather than the
closure itself, so that fields can be compared structurally. -/
structure FalloffSpec where
  falloff_type : String
  amplitude : ℚ
  coefficient : ℚ
  clamp : Bool

/-- The scalar/vector field value objects the attractor node constructs
(imported from `sverchok_extra.data`), embedded as an AST: each
constructor records exactly the data its Python counterpart is built
from.  The KDTree of the MIN branch is embedded as the list of centers
inserted into it (attractor_field.py lines 98-101). -/
inductive SvField where
  | scalarPointDistance (center : Vec3) (falloff : Option FalloffSpec)
  | vectorPointDistance (center : Vec3) (falloff : Option FalloffSpec)
  | mergedScalar (mode : String) (fields : List SvField)
  | averageVector (fields : List SvField)
  | kdtScalar (kdtCenters : List Vec3) (falloff : Option FalloffSpec)
  | kdtVector (kdtCenters : List Vec3) (falloff : Option FalloffSpec)
  | lineAttractorScalar (center direction : Vec3) (falloff : Option FalloffSpec)
  | lineAttractorVector (center direction : Vec3) (falloff : Option FalloffSpec)
  | planeAttractorScalar (center direction : Vec3) (falloff : Option FalloffSpec)
  | planeAttractorVector (center direction : Vec3) (falloff : Option FalloffSpec)

/-- Embedding of `SvExAttractorFieldNode.to_point` (attractor_field.py
lines 87-104): one center gives plain point-distance fields; otherwise
mode AVG merges per-center fields and any other mode (MIN) builds
KD-tree-backed fields.  Returns `(vfield, sfield)` like the source. -/
def to_point (point_mode : String) (centers : List Vec3)
    (falloff : Option FalloffSpec) : SvField × SvField :=
  if centers.length == 1 then
    (SvField.vectorPointDistance centers.headI falloff,
     SvField.scalarPointDistance centers.headI falloff)
  else if point_mode == "AVG" then
    (SvField.averageVector
        (centers.map (fun c => SvField.vectorPointDistance c falloff)),
     SvField.mergedScalar "AVG"
        (centers.map (fun c => SvField.scalarPointDistance c falloff)))
  else
    (SvField.kdtVector centers falloff, SvField.kdtScalar centers falloff)

/-- Embedding of `SvExAttractorFieldNode.to_line` (lines 106-109). -/
def to_line (center direction : Vec3) (falloff : Option FalloffSpec) :
    SvField × SvField :=
  (SvField.lineAttractorVector center direction falloff,
   SvField.lineAttractorScalar center direction falloff)

/-- Embedding of `SvExAttractorFieldNode.to_plane` (lines 111-114). -/
def to_plane (center direction : Vec3) (falloff : Option FalloffSpec) :
    SvField × SvField :=
  (SvField.planeAttractorVector center direction falloff,
   SvField.planeAttractorScalar center direction falloff)

/-- Embedding of the per-object body of `SvExAttractorFieldNode.process`
(attractor_field.py lines 135-147): build the optional falloff, then
dispatch on the attractor type; an unrecognized type raises
`Exception("not implemented yet")`, embedded as `Except.error`. -/
def attractor_process_object (attractor_type point_mode falloff_type : String)
    (clamp : Bool) (centers direction : List Vec3)
    (amplitude coefficient : ℚ) : Except String (SvField × SvField) :=
  let falloff_func : Option FalloffSpec :=
    if falloff_type == "NONE" then none
    else some ⟨falloff_type, amplitude, coefficient, clamp⟩
  if attractor_type == "Point" then
    Except.ok (to_point point_mode centers falloff_func)
  else if attractor_type == "Line" then
    Except.ok (to_line centers.headI direction.headI falloff_func)
  else if attractor_type == "Plane" then
    Except.ok (to_plane centers.headI direction.headI falloff_func)
  else
    Except.error "not implemented yet"

/-- Claim C5: when exactly one attractor point is given, the Point branch
produces the same scalar and vector fields regardless of the point mode
(in particular for MIN versus AVG): the single-center branch of `to_point`
never consults the mode. -/
theorem to_point_single_center_mode_irrelevant (mode mode' : String)
    (c : Vec3) (falloff : Option FalloffSpec) :
    to_point mode [c] falloff = to_point mode' [c] falloff := rfl

/-- Claim C6: with multiple point attractors, mode AVG averages the
per-point scalar and vector contributions while mode MIN builds fields
backed by a spatial index over all the centers. -/
theorem to_point_multi_centers (centers : List Vec3)
    (falloff : Option FalloffSpec) (h : 2 ≤ centers.length) :
    to_point "AVG" centers falloff
        = (SvField.averageVector
              (centers.map (fun c => SvField.vectorPointDistance c falloff)),
           SvField.mergedScalar "AVG"
              (centers.map (fun c => SvField.scalarPointDistance c falloff)))
      ∧ to_point "MIN" centers falloff
        = (SvField.kdtVector centers falloff,
           SvField.kdtScalar centers falloff) := by
  have hne : (centers.length == 1) = false := by
    simp
    omega
  constructor <;> simp [to_point, hne]

/-- Witness for C6 at two concrete centers. -/
theorem to_point_multi_centers_witness :
    2 ≤ ([((0:ℚ), (0:ℚ), (0:ℚ)), ((1:ℚ), (0:ℚ), (0:ℚ))] : List Vec3).length
      ∧ to_point "MIN" [((0:ℚ), (0:ℚ), (0:ℚ)), ((1:ℚ), (0:ℚ), (0:ℚ))] none
          = (SvField.kdtVector [((0:ℚ), (0:ℚ), (0:ℚ)), ((1:ℚ), (0:ℚ), (0:ℚ))] none,
             SvField.kdtScalar [((0:ℚ), (0:ℚ), (0:ℚ)), ((1:ℚ), (0:ℚ), (0:ℚ))] none) :=
  ⟨by decide,
    (to_point_multi_centers [((0:ℚ), (0:ℚ), (0:ℚ)), ((1:ℚ), (0:ℚ), (0:ℚ))]
      none (by decide)).2⟩

/-- Claim C7: any attractor-type selection other than Point, Line or Plane
makes `process` raise the generic error instead of emitting fields. -/
theorem attractor_process_object_unsupported
    (attractor_type point_mode falloff_type : String) (clamp : Bool)
    (centers direction : List Vec3) (amplitude coefficient : ℚ)
    (h1 : attractor_type ≠ "Point") (h2 : attractor_type ≠ "Line")
    (h3 : attractor_type ≠ "Plane") :
    attractor_process_object attractor_type point_mode falloff_type clamp
        centers direction amplitude coefficient
      = Except.error "not implemented yet" := by
  have e1 : (attractor_type == "Point") = false := beq_eq_false_iff_ne.mpr h1
  have e2 : (attractor_type == "Line") = false := beq_eq_false_iff_ne.mpr h2
  have e3 : (attractor_type == "Plane") = false := beq_eq_false_iff_ne.mpr h3
  simp [attractor_process_object, e1, e2, e3]

/-- Witness for C7 at the concrete unsupported selection "Mesh". -/
theorem attractor_process_object_unsupported_witness :
    attractor_process_object "Mesh" "AVG" "NONE" false [] [] 1 1
      = Except.error "not implemented yet" :=
  attractor_process_object_unsupported "Mesh" "AVG" "NONE" false [] [] 1 1
    (by decide) (by decide) (by decide)

/-- Claim C10: for the Line and Plane attractor types only the first
center and the first direction of an input object reach the constructed
fields; any further centers or directions change nothing. -/
theorem attractor_line_plane_first_only (point_mode falloff_type : String)
    (clamp : Bool) (c0 d0 : Vec3) (cs cs' ds ds' : List Vec3)
    (amplitude coefficient : ℚ) :
    (attractor_process_object "Line" point_mode falloff_type clamp
          (c0 :: cs) (d0 :: ds) amplitude coefficient
        = attractor_process_object "Line" point_mode falloff_type clamp
          (c0 :: cs') (d0 :: ds') amplitude coefficient)
      ∧ (attractor_process_object "Plane" point_mode falloff_type clamp
          (c0 :: cs) (d0 :: ds) amplitude coefficient
        = attractor_process_object "Plane" point_mode falloff_type clamp
          (c0 :: cs') (d0 :: ds') amplitude coefficient) :=
  ⟨rfl, rfl⟩

/-- Modelled from the spec: the `falloff` factory lives in
`sverchok_extra.utils`, which is not among the given sources.  Per the
spec (§3, §4.2) a falloff is "a pure function of scalar distance" with
three selectable shapes — none, inverse-exponential, or Gaussian — "and an
optional clamp to avoid runaway values near zero distance".  The
decreasing exponential `x ↦ exp(-x)` is not computable over ℚ and is
abstracted as the parameter `E`; the statements assume of it only
antitonicity.  Shape NONE never reaches the factory (the node skips it,
lines 135-136), so its shape is the bare amplitude. -/
def falloffShape (E : ℚ → ℚ) (falloff_type : String)
    (amplitude coefficient r : ℚ) : ℚ :=
  if falloff_type == "inverse_exp" then amplitude * E (coefficient * r)
  else if falloff_type == "gauss" then amplitude * E (coefficient * r ^ 2 / 2)
  else amplitude

/-- Modelled from the spec: with clamp on, the falloff value is capped (by
the amplitude, its zero-distance value) so it cannot run away near zero
distance. -/
def falloffClamped (E : ℚ → ℚ) (falloff_type : String)
    (amplitude coefficient : ℚ) (clamp : Bool) (r : ℚ) : ℚ :=
  let v := falloffShape E falloff_type amplitude coefficient r
  if clamp then min v amplitude else v

/-- The falloff selection of `process` (attractor_field.py lines 135-138)
at the function level: type NONE yields no falloff function, any other
type calls the factory. -/
def makeFalloff (E : ℚ → ℚ) (falloff_type : String)
    (amplitude coefficient : ℚ) (clamp : Bool) : Option (ℚ → ℚ) :=
  if falloff_type == "NONE" then none
  else some (falloffClamped E falloff_type amplitude coefficient clamp)

/-- Claim C4: for each of the three selectable falloff types, every
falloff function produced with clamp applied is monotonically
non-increasing in the distance, over nonnegative distances (with the
node's nonnegative amplitude, a nonnegative coefficient, and `E` standing
for the decreasing exponential). -/
theorem falloff_nonincreasing (E : ℚ → ℚ) (falloff_type : String)
    (amplitude coefficient : ℚ)
    (hE : ∀ x y, 0 ≤ x → x ≤ y → E y ≤ E x)
    (ha : 0 ≤ amplitude) (hc : 0 ≤ coefficient)
    (htype : falloff_type ∈ (["NONE", "inverse_exp", "gauss"] : List String)) :
    ∀ g, makeFalloff E falloff_type amplitude coefficient true = some g →
      ∀ d1 d2, 0 ≤ d1 → d1 ≤ d2 → g d2 ≤ g d1 := by
  intro g hg d1 d2 hd1 hd12
  simp only [List.mem_cons, List.not_mem_nil, or_false] at htype
  rcases htype with h | h | h
  · subst h
    simp [makeFalloff] at hg
  · subst h
    simp only [makeFalloff] at hg
    norm_num at hg
    obtain ⟨-, rfl⟩ := hg
    have harg : coefficient * d1 ≤ coefficient * d2 :=
      mul_le_mul_of_nonneg_left hd12 hc
    have hEle : E (coefficient * d2) ≤ E (coefficient * d1) :=
      hE _ _ (mul_nonneg hc hd1) harg
    have hmul : amplitude * E (coefficient * d2)
        ≤ amplitude * E (coefficient * d1) :=
      mul_le_mul_of_nonneg_left hEle ha
    have hs : ∀ r, falloffShape E "inverse_exp" amplitude coefficient r
        = amplitude * E (coefficient * r) := by
      intro r
      unfold falloffShape
      rw [if_pos (by decide)]
    show min (falloffShape E "inverse_exp" amplitude coefficient d2) amplitude
        ≤ min (falloffShape E "inverse_exp" amplitude coefficient d1) amplitude
    rw [hs d1, hs d2]
    exact min_le_min hmul le_rfl
  · subst h
    simp only [makeFalloff] at hg
    norm_num at hg
    obtain ⟨-, rfl⟩ := hg
    have hsq : d1 ^ 2 ≤ d2 ^ 2 := by nlinarith
    have harg : coefficient * d1 ^ 2 / 2 ≤ coefficient * d2 ^ 2 / 2 := by
      have := mul_le_mul_of_nonneg_left hsq hc
      linarith
    have hEle : E (coefficient * d2 ^ 2 / 2) ≤ E (coefficient * d1 ^ 2 / 2) :=
      hE _ _ (by positivity) harg
    have hmul : amplitude * E (coefficient * d2 ^ 2 / 2)
        ≤ amplitude * E (coefficient * d1 ^ 2 / 2) :=
      mul_le_mul_of_nonneg_left hEle ha
    have hs : ∀ r, falloffShape E "gauss" amplitude coefficient r
        = amplitude * E (coefficient * r ^ 2 / 2) := by
      intro r
      unfold falloffShape
      rw [if_neg (by decide), if_pos (by decide)]
    show min (falloffShape E "gauss" amplitude coefficient d2) amplitude
        ≤ min (falloffShape E "gauss" amplitude coefficient d1) amplitude
    rw [hs d1, hs d2]
    exact min_le_min hmul le_rfl

/-- Witness for C4: the Gaussian shape with a concrete antitone stand-in
for the exponential, amplitude 1, coefficient 1, distances 0 and 1. -/
theorem falloff_nonincreasing_witness :
    ("gauss" ∈ (["NONE", "inverse_exp", "gauss"] : List String))
      ∧ falloffClamped (fun x => 1 - x) "gauss" 1 1 true 1
          ≤ falloffClamped (fun x => 1 - x) "gauss" 1 1 true 0 :=
  ⟨by decide,
    falloff_nonincreasing (fun x => 1 - x) "gauss" 1 1
      (fun x y _ hxy => by
        show (1 : ℚ) - y ≤ 1 - x
        linarith)
      (by norm_num) (by norm_num) (by decide)
      (falloffClamped (fun x => 1 - x) "gauss" 1 1 true) rfl
      0 1 le_rfl (by norm_num)⟩

/-- Modelled from the spec: the node fits "an N-dimensional RBF
interpolant ... mapping parameter → position" through scipy's `Rbf`
(rbf_curve.py lines 73-76), which is external code.  Its kernel matrix on
the 1-D parameter nodes `ts` has entries `φ(|t_i - t_j|)` for the selected
kernel `φ` (which absorbs the epsilon setting). -/
def rbfMatrix (n : ℕ) (φ : ℚ → ℚ) (ts : Fin n → ℚ) :
    Matrix (Fin n) (Fin n) ℚ :=
  Matrix.of fun i j => φ |ts i - ts j|

/-- The linear system scipy's `Rbf` solves for the weights: the kernel
matrix minus `smooth` times the identity. -/
def rbfSystem (n : ℕ) (φ : ℚ → ℚ) (ts : Fin n → ℚ) (smooth : ℚ) :
    Matrix (Fin n) (Fin n) ℚ :=
  rbfMatrix n φ ts - smooth • (1 : Matrix (Fin n) (Fin n) ℚ)

/-- Modelled from the spec: `SvExRbfCurve.evaluate`
(sverchok_extra.data.curve, not among the given sources) applies the
fitted interpolant: component `c` of the curve point at parameter `t` is
`Σ_j φ(|t - t_j|) · W_{j,c}` for the solved weight matrix `W`. -/
def rbfEval (n : ℕ) (φ : ℚ → ℚ) (ts : Fin n → ℚ)
    (W : Matrix (Fin n) (Fin 3) ℚ) (t : ℚ) : Fin 3 → ℚ :=
  fun c => ∑ j, φ |t - ts j| * W j c

theorem rbfEval_at_node (n : ℕ) (φ : ℚ → ℚ) (ts : Fin n → ℚ)
    (W : Matrix (Fin n) (Fin 3) ℚ) (i : Fin n) :
    rbfEval n φ ts W (ts i) = fun c => (rbfMatrix n φ ts * W) i c := by
  funext c
  rw [Matrix.mul_apply]
  rfl

/-- Counterexample to claim C1 as stated: the claim quantifies over every
input to the fitted curve, but with nonzero smoothing (here the node's
Smooth input set to 1/2, linear kernel, vertices (0,0,0) and (1,0,0),
parameters [0, 1]) the weights solving scipy's smoothed system give a
curve whose value at the first parameter is (2/3, 0, 0), not the first
input point (0, 0, 0). -/
theorem rbf_endpoint_smooth_counterexample :
    rbfSystem 2 (fun r => r) ![0, 1] (1 / 2)
          * !![(4:ℚ)/3, 0, 0; (2:ℚ)/3, 0, 0]
        = !![(0:ℚ), 0, 0; (1:ℚ), 0, 0]
      ∧ rbfEval 2 (fun r => r) ![0, 1] !![(4:ℚ)/3, 0, 0; (2:ℚ)/3, 0, 0]
          ((![(0:ℚ), 1]) 0)
        ≠ fun c => (!![(0:ℚ), 0, 0; (1:ℚ), 0, 0]) 0 c := by
  constructor
  · ext i j
    fin_cases i <;> fin_cases j <;>
      simp [rbfSystem, rbfMatrix, Matrix.mul_apply, Fin.sum_univ_two,
        Matrix.one_apply] <;>
      norm_num
  · intro h
    have h0 := congrFun h 0
    simp [rbfEval, Fin.sum_univ_two] at h0

/-- Claim C1 (amended): when the smoothing parameter is 0 (its default),
any weights solving the RBF system make the fitted curve reproduce every
input point at its parameter value exactly; in particular the curve
evaluated at the first parameter value returns the first input point and
at the last parameter value the last input point. -/
theorem rbf_curve_endpoints (n : ℕ) (φ : ℚ → ℚ) (ts : Fin n → ℚ)
    (W Y : Matrix (Fin n) (Fin 3) ℚ) (hn : 2 ≤ n)
    (hsolve : rbfSystem n φ ts 0 * W = Y) :
    rbfEval n φ ts W (ts ⟨0, by omega⟩) = (fun c => Y ⟨0, by omega⟩ c)
      ∧ rbfEval n φ ts W (ts ⟨n - 1, by omega⟩)
        = (fun c => Y ⟨n - 1, by omega⟩ c) := by
  have hA : rbfSystem n φ ts 0 = rbfMatrix n φ ts := by
    unfold rbfSystem
    rw [zero_smul, sub_zero]
  rw [hA] at hsolve
  constructor
  · rw [rbfEval_at_node, hsolve]
  · rw [rbfEval_at_node, hsolve]

/-- Witness for the amended C1: linear kernel, vertices (0,0,0) and
(1,0,0), parameters [0, 1], smoothing 0; the exact weights reproduce the
first endpoint. -/
theorem rbf_curve_endpoints_witness :
    (2 ≤ 2)
      ∧ rbfEval 2 (fun r => r) ![0, 1] !![(1:ℚ), 0, 0; (0:ℚ), 0, 0]
          ((![(0:ℚ), 1]) 0)
        = (fun c => (!![(0:ℚ), 0, 0; (1:ℚ), 0, 0]) 0 c) :=
  ⟨le_rfl,
    (rbf_curve_endpoints 2 (fun r => r) ![0, 1]
      !![(1:ℚ), 0, 0; (0:ℚ), 0, 0] !![(0:ℚ), 0, 0; (1:ℚ), 0, 0]
      le_rfl
      (by
        ext i j
        fin_cases i <;> fin_cases j <;>
          simp [rbfSystem, rbfMatrix, Matrix.mul_apply, Fin.sum_univ_two,
            Matrix.one_apply])).1⟩

/-- Modelled from the spec: `SvExRbfCurve` (sverchok_extra.data.curve, not
among the given sources) wraps a fitted RBF interpolant together with the
parameter domain `u_bounds`; the interpolant is recorded by its kernel,
its parameter nodes and its solved weights. -/
structure SvExRbfCurve where
  kernel : ℚ → ℚ
  nodes : List ℚ
  weights : List Vec3
  u_bounds : ℚ × ℚ

/-- The host helper `zip_long_repeat` (sverchok.data_structure) extends
shorter lists by repeating their last element before zipping. -/
def extendLast {α : Type} (l : List α) (d : α) (n : ℕ) : List α :=
  l ++ List.replicate (n - l.length) (l.getLastD d)

def zipLongRepeat3 {α β γ : Type} (a : List α) (b : List β) (c : List γ)
    (da : α) (db : β) (dc : γ) : List (α × β × γ) :=
  let n := max a.length (max b.length c.length)
  (extendLast a da n).zip ((extendLast b db n).zip (extendLast c dc n))

/-- Embedding of the loop of `SvExRbfCurveNode.process` (rbf_curve.py
lines 64-80): for each object, compute the arc-length parameters, fit the
RBF through scipy (the external linear solve is the parameter `solve`,
taking the parameters, vertices, smooth and epsilon), and wrap the result
in a curve constructed with parameter domain (0.0, 1.0) (line 77). -/
def rbf_node_process (rt φ : ℚ → ℚ)
    (solve : List ℚ → List Vec3 → ℚ → ℚ → List Vec3)
    (vertices_s : List (List Vec3)) (epsilon_s smooth_s : List ℚ) :
    List SvExRbfCurve :=
  (zipLongRepeat3 vertices_s epsilon_s smooth_s [] 1 0).map
    (fun ves =>
      let ts := make_euclidian_ts rt ves.1
      SvExRbfCurve.mk φ ts (solve ts ves.1 ves.2.2 ves.2.1) (0, 1))

/-- Claim C9: every curve object the RBF-curve node outputs is constructed
with parameter domain [0, 1], whatever the vertices, kernel, smooth and
epsilon inputs are. -/
theorem rbf_node_process_u_bounds (rt φ : ℚ → ℚ)
    (solve : List ℚ → List Vec3 → ℚ → ℚ → List Vec3)
    (vertices_s : List (List Vec3)) (epsilon_s smooth_s : List ℚ) :
    List.Forall (fun curve => curve.u_bounds = ((0 : ℚ), (1 : ℚ)))
      (rbf_node_process rt φ solve vertices_s epsilon_s smooth_s) := by
  unfold rbf_node_process
  rw [List.forall_iff_forall_mem]
  intro curve hcurve
  rcases List.mem_map.mp hcurve with ⟨ves, -, rfl⟩
  rfl

/-- Embedding of the scipy import guard (rbf_curve.py lines 16-19): the
module's node classes, as a function of whether the optional dependency is
present (`some`) or absent (`none`): the class statement is only executed
under the guard. -/
def rbfCurveNodeClasses (scipy : Option Unit) : List String :=
  match scipy with
  | none => []
  | some _ => ["SvExRbfCurveNode"]

/-- Embedding of `register` (rbf_curve.py lines 82-84): the classes it
registers; the call happens only when scipy is present. -/
def rbf_register (scipy : Option Unit) : List String :=
  if scipy.isSome then ["SvExRbfCurveNode"] else []

/-- Claim C8: with scipy absent the node class is not defined and
`register` registers nothing; with scipy present `register` registers
exactly the node class.  The feature is entirely present or entirely
absent — no partial-failure path. -/
theorem rbf_register_all_or_nothing :
    rbfCurveNodeClasses none = [] ∧ rbf_register none = []
      ∧ rbfCurveNodeClasses (some ()) = ["SvExRbfCurveNode"]
      ∧ rbf_register (some ()) = ["SvExRbfCurveNode"]
      ∧ rbf_register none = rbfCurveNodeClasses none
      ∧ rbf_register (some ()) = rbfCurveNodeClasses (some ()) :=
  ⟨rfl, rfl, rfl, rfl, rfl, rfl⟩
